import Mathlib

/-!
Verification development for the airtri personal cloud-drive server.

The definitions below embed, in Lean, the request handlers of
`main.py`, the upload worker of `utils/uploader.py`, the client pool of
`utils/clients.py`, and the streaming flow of `utils/streamer/`.
The Node Store (`utils/directoryHandler.py`) is not part of the source
tree; the definitions that stand in for it are modelled from the
specification and are marked as such in their doc comments.
-/

/- ### Node Store data model -/

/-- Error taxonomy of the Virtual Directory Engine (spec section 7). -/
inductive DriveError where
  | notFound
  | conflict
  | invalidOperation
  | unauthorized
deriving DecidableEq, Repr

/-- Message text carried by a raised drive error, as surfaced by the
HTTP layer when a handler stringifies the exception. -/
def errText : DriveError → String
  | .notFound => "NotFound"
  | .conflict => "Conflict"
  | .invalidOperation => "InvalidOperation"
  | .unauthorized => "Unauthorized"

/-- Modelled from the spec: a Node of the Node Store
(`utils/directoryHandler.py` is absent from the source tree).  A node is
a File (with an opaque storage reference, a size and a duration) or a
Folder (with a list of child nodes); both carry a process-unique id, a
display name and a soft-delete flag. -/
inductive FsTree where
  | file (ident : Nat) (nm : String) (tr : Bool) (fileId : Nat) (size : Nat) (duration : Nat)
  | folder (ident : Nat) (nm : String) (tr : Bool) (children : List FsTree)

/-- Display name of a node. -/
def nameOf : FsTree → String
  | .file _ n _ _ _ _ => n
  | .folder _ n _ _ => n

/-- Process-unique id of a node. -/
def identOf : FsTree → Nat
  | .file i _ _ _ _ _ => i
  | .folder i _ _ _ => i

/-- Soft-delete flag of a node. -/
def trashedOf : FsTree → Bool
  | .file _ _ t _ _ _ => t
  | .folder _ _ t _ => t

/-- Whether a node is a folder. -/
def isFolder : FsTree → Bool
  | .file _ _ _ _ _ _ => false
  | .folder _ _ _ _ => true

/-- Children of a node (empty for files). -/
def childrenOf : FsTree → List FsTree
  | .file _ _ _ _ _ _ => []
  | .folder _ _ _ ch => ch

/-- First non-trashed child carrying the given name, the lookup used by
path resolution (spec section 4.1: case-sensitive exact match among
non-trashed children). -/
def findChild (nm : String) : List FsTree → Option FsTree
  | [] => none
  | c :: cs => if !(trashedOf c) && (nameOf c == nm) then some c else findChild nm cs

/-- Modelled from the spec: `resolve` of the Path Resolver
(`utils/directoryHandler.py` is absent).  Splits already done, the path
is a list of segments; walk from the given node following non-trashed
child-name lookup, failing when a segment is missing or an intermediate
segment names a File. -/
def resolve (t : FsTree) : List String → Option FsTree
  | [] => some t
  | seg :: rest =>
    match t with
    | .file _ _ _ _ _ _ => none
    | .folder _ _ _ ch =>
      match findChild seg ch with
      | none => none
      | some c => resolve c rest

mutual
/-- Number of nodes in a tree carrying the given id. -/
def idCount (i : Nat) : FsTree → Nat
  | .file j _ _ _ _ _ => if j = i then 1 else 0
  | .folder j _ _ ch => (if j = i then 1 else 0) + idCountList i ch
/-- Number of nodes in a forest carrying the given id. -/
def idCountList (i : Nat) : List FsTree → Nat
  | [] => 0
  | c :: cs => idCount i c + idCountList i cs
end

/-- Remove the first non-trashed child with the given name from a list,
returning it together with the remaining siblings. -/
def extractChild (nm : String) : List FsTree → Option (FsTree × List FsTree)
  | [] => none
  | c :: cs =>
    if !(trashedOf c) && (nameOf c == nm) then some (c, cs)
    else
      match extractChild nm cs with
      | none => none
      | some (n, cs') => some (n, c :: cs')

/-- Replace the first non-trashed child with the given name by a new
node, leaving every other sibling untouched. -/
def replaceChild (nm : String) (c' : FsTree) : List FsTree → Option (List FsTree)
  | [] => none
  | c :: cs =>
    if !(trashedOf c) && (nameOf c == nm) then some (c' :: cs)
    else
      match replaceChild nm c' cs with
      | none => none
      | some cs' => some (c :: cs')

/-- Detach the node at the given path from the tree, returning the tree
without it together with the detached node.  The root itself cannot be
detached. -/
def removeAt (t : FsTree) : List String → Option (FsTree × FsTree)
  | [] => none
  | seg :: rest =>
    match t with
    | .file _ _ _ _ _ _ => none
    | .folder i n tr ch =>
      match rest with
      | [] =>
        match extractChild seg ch with
        | none => none
        | some (node, ch') => some (.folder i n tr ch', node)
      | _ :: _ =>
        match findChild seg ch with
        | none => none
        | some c =>
          match removeAt c rest with
          | none => none
          | some (c', node) =>
            match replaceChild seg c' ch with
            | none => none
            | some ch' => some (.folder i n tr ch', node)

/-- Insert a node as a child of the folder at the given path. -/
def insertAt (t : FsTree) (path : List String) (node : FsTree) : Option FsTree :=
  match path with
  | [] =>
    match t with
    | .file _ _ _ _ _ _ => none
    | .folder i n tr ch => some (.folder i n tr (node :: ch))
  | seg :: rest =>
    match t with
    | .file _ _ _ _ _ _ => none
    | .folder i n tr ch =>
      match findChild seg ch with
      | none => none
      | some c =>
        match insertAt c rest node with
        | none => none
        | some c' =>
          match replaceChild seg c' ch with
          | none => none
          | some ch' => some (.folder i n tr ch')

/-- Whether the first path is the second path itself or an ancestor
prefix of it, segment by segment; used for the self-containment check of
move and copy. -/
def pathWithin : List String → List String → Bool
  | [], _ => true
  | _ :: _, [] => false
  | a :: as, b :: bs => (a == b) && pathWithin as bs

/-- Whether the folder has a non-trashed child folder with the given
name (uniqueness check of the Mutation Engine, folders against folders). -/
def hasLiveFolderNamed (nm : String) : List FsTree → Bool :=
  fun ch => ch.any (fun c => isFolder c && !(trashedOf c) && (nameOf c == nm))

/-- Whether the folder has a non-trashed child with the given name, of
either variant (collision check of move and copy). -/
def hasLiveChildNamed (nm : String) : List FsTree → Bool :=
  fun ch => ch.any (fun c => !(trashedOf c) && (nameOf c == nm))

/- ### Mutation Engine, modelled from the spec -/

/-- Modelled from the spec: `move_file_folder` of the Mutation Engine
(`utils/directoryHandler.py` is absent).  Resolves both paths, fails
`InvalidOperation` when the destination is the source's own subtree or
itself, fails `Conflict` when the destination contains a non-trashed
sibling with the source's name, otherwise re-parents the node with no
recursive copy.  The self-containment check precedes the collision
check, as required by the spec's testable property that a move into the
own subtree always fails `InvalidOperation`. -/
def move_file_folder (t : FsTree) (src dst : List String) : Except DriveError FsTree :=
  match resolve t src with
  | none => .error .notFound
  | some node =>
    match resolve t dst with
    | none => .error .notFound
    | some dstNode =>
      if pathWithin src dst then .error .invalidOperation
      else if !(isFolder dstNode) then .error .invalidOperation
      else if hasLiveChildNamed (nameOf node) (childrenOf dstNode) then .error .conflict
      else
        match removeAt t src with
        | none => .error .notFound
        | some (t₁, node') =>
          match insertAt t₁ dst node' with
          | none => .error .notFound
          | some t₂ => .ok t₂

/-- Tree obtained after a move request: on failure the tree is left as
it was (no partial mutation). -/
def applyMove (t : FsTree) (src dst : List String) : FsTree :=
  match move_file_folder t src dst with
  | .error _ => t
  | .ok t' => t'

mutual
/-- Clone of a subtree with freshly minted ids, numbered consecutively
from the given supply; file clones keep the same storage reference. -/
def cloneFresh (fresh : Nat) : FsTree → FsTree × Nat
  | .file _ n tr fid sz du => (.file fresh n tr fid sz du, fresh + 1)
  | .folder _ n tr ch =>
    let (ch', fresh') := cloneFreshList (fresh + 1) ch
    (.folder fresh n tr ch', fresh')
/-- Clone of a forest with freshly minted ids. -/
def cloneFreshList (fresh : Nat) : List FsTree → List FsTree × Nat
  | [] => ([], fresh)
  | c :: cs =>
    let (c', f₁) := cloneFresh fresh c
    let (cs', f₂) := cloneFreshList f₁ cs
    (c' :: cs', f₂)
end

/-- Modelled from the spec: `copy_file_folder` of the Mutation Engine
(`utils/directoryHandler.py` is absent).  Deep-clones the source subtree
under the destination with fresh ids, under the same destination
collision and self-containment rules as move. -/
def copy_file_folder (t : FsTree) (fresh : Nat) (src dst : List String) :
    Except DriveError (FsTree × Nat) :=
  match resolve t src with
  | none => .error .notFound
  | some node =>
    match resolve t dst with
    | none => .error .notFound
    | some dstNode =>
      if pathWithin src dst then .error .invalidOperation
      else if !(isFolder dstNode) then .error .invalidOperation
      else if hasLiveChildNamed (nameOf node) (childrenOf dstNode) then .error .conflict
      else
        let (clone, fresh') := cloneFresh fresh node
        match insertAt t dst clone with
        | none => .error .notFound
        | some t' => .ok (t', fresh')

/-- Set the soft-delete flag of the root of a node. -/
def setTrashed (b : Bool) : FsTree → FsTree
  | .file i n _ fid sz du => .file i n b fid sz du
  | .folder i n _ ch => .folder i n b ch

/-- Set the display name of the root of a node. -/
def setName (nm : String) : FsTree → FsTree
  | .file i _ tr fid sz du => .file i nm tr fid sz du
  | .folder i _ tr ch => .folder i nm tr ch

/-- Replace the node at a non-empty path by the image of a function
applied to it, leaving the rest of the tree untouched. -/
def updateAt (t : FsTree) (f : FsTree → FsTree) : List String → Option FsTree
  | [] => some (f t)
  | seg :: rest =>
    match t with
    | .file _ _ _ _ _ _ => none
    | .folder i n tr ch =>
      match findChild seg ch with
      | none => none
      | some c =>
        match updateAt c f rest with
        | none => none
        | some c' =>
          match replaceChild seg c' ch with
          | none => none
          | some ch' => some (.folder i n tr ch')

/-- Modelled from the spec: `rename_file_folder` of the Mutation Engine
(`utils/directoryHandler.py` is absent).  Renaming the root is rejected;
renaming a folder fails `Conflict` when a non-trashed sibling folder
already carries the new name (files are not required to be unique). -/
def rename_file_folder (t : FsTree) (path : List String) (nm : String) :
    Except DriveError FsTree :=
  match path with
  | [] => .error .invalidOperation
  | _ :: _ =>
    match resolve t path with
    | none => .error .notFound
    | some node =>
      match resolve t path.dropLast with
      | none => .error .notFound
      | some parent =>
        if isFolder node && hasLiveFolderNamed nm (childrenOf parent) then .error .conflict
        else
          match updateAt t (setName nm) path with
          | none => .error .notFound
          | some t' => .ok t'

/-- Modelled from the spec: `trash_file_folder` of the Mutation Engine
(`utils/directoryHandler.py` is absent).  Toggles the flag on the
resolved node only; trashing the root is rejected. -/
def trash_file_folder (t : FsTree) (path : List String) (b : Bool) :
    Except DriveError FsTree :=
  match path with
  | [] => .error .invalidOperation
  | _ :: _ =>
    match updateAt t (setTrashed b) path with
    | none => .error .notFound
    | some t' => .ok t'

/-- Modelled from the spec: `delete_file_folder` of the Mutation Engine
(`utils/directoryHandler.py` is absent).  Permanently detaches the node
and its subtree; fails `NotFound` when the path does not resolve, and
rejects deleting the root. -/
def delete_file_folder (t : FsTree) (path : List String) : Except DriveError FsTree :=
  match path with
  | [] => .error .invalidOperation
  | _ :: _ =>
    match removeAt t path with
    | none => .error .notFound
    | some (t', _) => .ok t'

/-- Modelled from the spec: `new_folder` of the Mutation Engine
(`utils/directoryHandler.py` is absent).  Fails `Conflict` when a
non-trashed sibling folder with the same name exists under the resolved
parent; otherwise creates a Folder node with empty children. -/
def new_folder (t : FsTree) (fresh : Nat) (path : List String) (nm : String) :
    Except DriveError (FsTree × Nat) :=
  match resolve t path with
  | none => .error .notFound
  | some parent =>
    if !(isFolder parent) then .error .notFound
    else if hasLiveFolderNamed nm (childrenOf parent) then .error .conflict
    else
      match insertAt t path (.folder fresh nm false []) with
      | none => .error .notFound
      | some t' => .ok (t', fresh + 1)

/-- Modelled from the spec: `get_file` of the Query Engine
(`utils/directoryHandler.py` is absent).  Read-only lookup by path
returning the File node's storage reference, name and size. -/
def get_file (t : FsTree) (path : List String) : Option (Nat × String × Nat) :=
  match resolve t path with
  | some (.file _ n _ fid sz _) => some (fid, n, sz)
  | _ => none

/- ### HTTP layer (src/main.py) -/

/-- Response of an API handler: the JSON status produced by the handler
itself, or the framework's generic internal-error response when an
exception escapes a handler that has no try/except around its drive
call. -/
inductive ApiResponse where
  | ok
  | statusMsg (s : String)
  | internalServerError
deriving DecidableEq, Repr

/-- Drive operations a handler can invoke on the Node Store, recorded
as a trace. -/
inductive DriveOp where
  | opGetDirectory (path : List String)
  | opGetFile (path : List String)
  | opNewFolder (path : List String) (nm : String)
  | opNewFile (path : List String) (nm : String)
  | opRename (path : List String) (nm : String)
  | opTrash (path : List String) (b : Bool)
  | opDelete (path : List String)
  | opMove (src dst : List String)
  | opCopy (src dst : List String)
deriving DecidableEq, Repr

/-- Whether a drive operation mutates the Node Store (reads do not). -/
def isMutation : DriveOp → Bool
  | .opGetDirectory _ => false
  | .opGetFile _ => false
  | _ => true

/-- Conflict message returned by `api_new_folder` in `src/main.py`. -/
def folderConflictMsg : String := "Folder with the name already exist in current directory"

/-- Invalid-password message returned by every mutation handler in
`src/main.py`. -/
def invalidPasswordMsg : String := "Invalid password"

/-- State threaded through the handlers: the tree of the Node Store and
the fresh-id supply. -/
structure DriveState where
  tree : FsTree
  fresh : Nat

/-- Handler `api_new_folder` of `src/main.py` (route
`/api/createNewFolder`): checks the password, lists the parent
directory's contents and rejects when any sibling folder (the loop does
not test the trash flag) carries the requested name, and otherwise calls
`new_folder`.  A missing parent raises out of the handler, which has no
try/except, so the framework answers with an internal error. -/
def api_new_folder (adminPw pw : String) (s : DriveState) (path : List String)
    (nm : String) : ApiResponse × DriveState × List DriveOp :=
  if !(pw == adminPw) then (.statusMsg invalidPasswordMsg, s, [])
  else
    match resolve s.tree path with
    | some (.folder _ _ _ ch) =>
      if ch.any (fun c => isFolder c && (nameOf c == nm)) then
        (.statusMsg folderConflictMsg, s, [.opGetDirectory path])
      else
        match new_folder s.tree s.fresh path nm with
        | .ok (t', f') => (.ok, ⟨t', f'⟩, [.opGetDirectory path, .opNewFolder path nm])
        | .error _ => (.internalServerError, s, [.opGetDirectory path, .opNewFolder path nm])
    | _ => (.internalServerError, s, [.opGetDirectory path])

/-- Handler `rename_file_folder` of `src/main.py` (route
`/api/renameFileFolder`): checks the password then calls the drive
operation with no try/except, so a drive failure escapes as an internal
error. -/
def api_rename_file_folder (adminPw pw : String) (s : DriveState) (path : List String)
    (nm : String) : ApiResponse × DriveState × List DriveOp :=
  if !(pw == adminPw) then (.statusMsg invalidPasswordMsg, s, [])
  else
    match rename_file_folder s.tree path nm with
    | .ok t' => (.ok, ⟨t', s.fresh⟩, [.opRename path nm])
    | .error _ => (.internalServerError, s, [.opRename path nm])

/-- Handler `trash_file_folder` of `src/main.py` (route
`/api/trashFileFolder`): password check, then the drive call with no
try/except. -/
def api_trash_file_folder (adminPw pw : String) (s : DriveState) (path : List String)
    (b : Bool) : ApiResponse × DriveState × List DriveOp :=
  if !(pw == adminPw) then (.statusMsg invalidPasswordMsg, s, [])
  else
    match trash_file_folder s.tree path b with
    | .ok t' => (.ok, ⟨t', s.fresh⟩, [.opTrash path b])
    | .error _ => (.internalServerError, s, [.opTrash path b])

/-- Handler `delete_file_folder` of `src/main.py` (route
`/api/deleteFileFolder`): password check, then the drive call with no
try/except. -/
def api_delete_file_folder (adminPw pw : String) (s : DriveState) (path : List String) :
    ApiResponse × DriveState × List DriveOp :=
  if !(pw == adminPw) then (.statusMsg invalidPasswordMsg, s, [])
  else
    match delete_file_folder s.tree path with
    | .ok t' => (.ok, ⟨t', s.fresh⟩, [.opDelete path])
    | .error _ => (.internalServerError, s, [.opDelete path])

/-- Handler `move_file_folder` of `src/main.py` (route
`/api/moveFileFolder`): password check, then the drive call inside a
try/except that returns the stringified exception as the status. -/
def api_move_file_folder (adminPw pw : String) (s : DriveState) (src dst : List String) :
    ApiResponse × DriveState × List DriveOp :=
  if !(pw == adminPw) then (.statusMsg invalidPasswordMsg, s, [])
  else
    match move_file_folder s.tree src dst with
    | .ok t' => (.ok, ⟨t', s.fresh⟩, [.opMove src dst])
    | .error e => (.statusMsg (errText e), s, [.opMove src dst])

/-- Handler `copy_file_folder` of `src/main.py` (route
`/api/copyFileFolder`): password check, then the drive call inside a
try/except that returns the stringified exception as the status. -/
def api_copy_file_folder (adminPw pw : String) (s : DriveState) (src dst : List String) :
    ApiResponse × DriveState × List DriveOp :=
  if !(pw == adminPw) then (.statusMsg invalidPasswordMsg, s, [])
  else
    match copy_file_folder s.tree s.fresh src dst with
    | .ok (t', f') => (.ok, ⟨t', f'⟩, [.opCopy src dst])
    | .error e => (.statusMsg (errText e), s, [.opCopy src dst])

/-- Whether a response surfaces only the spec's error taxonomy: a
success, the password rejection, or the text of one of the four typed
drive errors; a framework internal error or any other text is outside
the taxonomy. -/
def taxonomyOnly : ApiResponse → Bool
  | .ok => true
  | .statusMsg s =>
    (s == invalidPasswordMsg) || (s == errText .notFound) || (s == errText .conflict) ||
      (s == errText .invalidOperation) || (s == errText .unauthorized)
  | .internalServerError => false

/- ### getDirectory dispatch (src/main.py, api_get_directory) -/

/-- Whether the first character list starts the second one. -/
def leadMatch : List Char → List Char → Bool
  | [], _ => true
  | _ :: _, [] => false
  | a :: as, b :: bs => (a == b) && leadMatch as bs

/-- Whether the first character list occurs somewhere inside the
second, mirroring the python substring test. -/
def subMatch (needle : List Char) : List Char → Bool
  | [] => leadMatch needle []
  | b :: bs => leadMatch needle (b :: bs) || subMatch needle bs

/-- Whether the second string occurs as a substring of the first,
mirroring the python containment test on paths. -/
def strContains (hay needle : String) : Bool := subMatch needle.toList hay.toList

/-- Characters after the first occurrence of the given character,
mirroring the second component of a python one-split. -/
def afterChar (c : Char) : List Char → List Char
  | [] => []
  | x :: xs => if x == c then xs else afterChar c xs

/-- Text after the first underscore of a path, the extraction
`path.split` at one underscore used by the search and share branches. -/
def afterUnderscore (s : String) : String := String.mk (afterChar '_' s.toList)

/-- Outcome of the dispatch performed by `api_get_directory`. -/
inductive DirDispatch where
  | trashListing
  | searchResults (query : String)
  | shareResolve (path : String)
  | genericDir (path : String)
deriving DecidableEq, Repr

/-- Dispatch of `api_get_directory` in `src/main.py`: a path equal to
the trash path lists the trash, then a path containing the search marker
is routed to search with the text after the first underscore as the
query (the handler afterwards URL-unquotes that query), then a path
containing the share marker resolves the text after the first underscore
under share authorization, and every other path goes through generic
resolution. -/
def api_get_directory_dispatch (path : String) : DirDispatch :=
  if path == "/trash" then .trashListing
  else if strContains path "/search_" then .searchResults (afterUnderscore path)
  else if strContains path "/share_" then .shareResolve (afterUnderscore path)
  else .genericDir path

/- ### Upload size guard (src/main.py, upload_file) -/

/-- Outcome of the chunk-writing loop of the `/api/upload` handler:
either every chunk was written and the cache file holds the accumulated
bytes, or a chunk would have pushed the size past the limit, the partial
file was deleted and an error response produced. -/
inductive SaveOutcome where
  | saved (bytes : Nat)
  | rejectedOversize
deriving DecidableEq, Repr

/-- Chunk loop of `upload_file` in `src/main.py`: for each chunk the
accumulated size is bumped first; if it exceeds the limit the partially
written file is unlinked and the handler raises before writing the
chunk, otherwise the chunk is written and the loop continues. -/
def writeChunks (maxSize : Nat) (fileSize : Nat) : List Nat → SaveOutcome
  | [] => .saved fileSize
  | c :: rest =>
    if fileSize + c > maxSize then .rejectedOversize
    else writeChunks maxSize (fileSize + c) rest

/-- Sizes the cache file takes on disk during the chunk loop, in order:
the size before each write, and on rejection the size zero left after
the unlink. -/
def diskSizes (maxSize : Nat) (fileSize : Nat) : List Nat → List Nat
  | [] => [fileSize]
  | c :: rest =>
    if fileSize + c > maxSize then [fileSize, 0]
    else fileSize :: diskSizes maxSize (fileSize + c) rest

/- ### Streaming flow (src/main.py dl_file, src/utils/streamer/__init__.py) -/

/-- Characters after the last dot of a name, when a dot is present. -/
def afterLastDot : List Char → Option (List Char)
  | [] => none
  | c :: cs =>
    match afterLastDot cs with
    | some r => some r
    | none => if c == '.' then some cs else none

/-- Lower-cased extension of a file name, dot included, as computed by
the split-extension call in the streamer. -/
def extOf (s : String) : String :=
  match afterLastDot s.toLower.toList with
  | some r => String.mk ( '.' :: r)
  | none => ""

/-- Video extensions recognized by the streamer. -/
def videoExtensions : List String :=
  [".mp4", ".mkv", ".webm", ".mov", ".avi", ".ts", ".ogv",
   ".m4v", ".flv", ".wmv", ".3gp", ".mpg", ".mpeg"]

/-- Whether a file name has a video extension (`is_video_file` in
`src/utils/streamer/__init__.py`). -/
def is_video_file (filename : String) : Bool := videoExtensions.contains (extOf filename)

/-- Response plan computed by the streamer: a range-not-satisfiable
refusal, a byte-range plan over the remote chunks, or the adaptive
transcoding path taken for video files at a non-original quality. -/
inductive StreamResult where
  | notSatisfiable (fileSize : Int)
  | plan (status : Nat) (offset firstCut lastCut partCount reqLength : Int)
  | adaptive (quality : String)
deriving DecidableEq, Repr

/-- Arithmetic of `stream_original_quality` in
`src/utils/streamer/__init__.py`: range defaulting, the 416 guard, and
the chunk offset and cut computation; the byte ranges are served from
remote storage only, no Node Store access occurs here. -/
def stream_original_quality (fileSize : Int) (range : Option (Int × Option Int))
    (chunkSize : Int) : StreamResult :=
  let fromBytes : Int := match range with | none => 0 | some (f, _) => f
  let untilBytes : Int :=
    match range with
    | none => fileSize - 1
    | some (_, u) => match u with | none => fileSize - 1 | some u => u
  if untilBytes > fileSize || fromBytes < 0 || untilBytes < fromBytes then
    .notSatisfiable fileSize
  else
    let untilBytes := min untilBytes (fileSize - 1)
    let offset := fromBytes - fromBytes.emod chunkSize
    let firstCut := fromBytes - offset
    let lastCut := untilBytes.emod chunkSize + 1
    let reqLength := untilBytes - fromBytes + 1
    let partCount := (untilBytes + chunkSize - 1).ediv chunkSize - offset.ediv chunkSize
    .plan (if range.isSome then 206 else 200) offset firstCut lastCut partCount reqLength

/-- `media_streamer` of `src/utils/streamer/__init__.py`: video files at
a non-original quality take the adaptive transcoding path, everything
else the original-quality byte-range path; the file size comes from the
remote file properties, and no Node Store operation is reachable from
here. -/
def media_streamer (fileName : String) (quality : String) (remoteSize : Int)
    (range : Option (Int × Option Int)) (chunkSize : Int) : StreamResult :=
  if is_video_file fileName && !(quality == "original") then .adaptive quality
  else stream_original_quality remoteSize range chunkSize

/-- Handler `dl_file` of `src/main.py` (route `/file`): looks the path
up with `get_file` to obtain the node's storage reference, name and
size, then hands the storage reference to the streamer; the returned
trace lists every Node Store operation the flow performs. -/
def dl_file (t : FsTree) (path : List String) (remoteSize : Int) (quality : String)
    (range : Option (Int × Option Int)) (chunkSize : Int) :
    Except DriveError (List DriveOp × Nat × StreamResult) :=
  match get_file t path with
  | none => .error .notFound
  | some (fid, nm, _) =>
    .ok ([DriveOp.opGetFile path], fid, media_streamer nm quality remoteSize range chunkSize)

/- ### Upload worker (src/utils/uploader.py) -/

/-- Retry budget of the upload worker. -/
def MAX_RETRIES : Nat := 5

/-- Outcome of the remote send attempt inside
`_upload_file_internal`: the send timed out, raised an exception, or
completed with a stored message id and actual size. -/
inductive SendOutcome where
  | timeout
  | failure (msg : String)
  | sent (msgId : Nat) (size : Nat)

/-- Observable events of one upload attempt, in order. -/
inductive UploadEvent where
  | sendAttempt
  | sendCompleted (msgId : Nat)
  | newFileCall (msgId : Nat) (size : Nat)
  | requeue (retry : Nat)
  | errorRaised
deriving DecidableEq, Repr

/-- Result of one pass through `_upload_file_internal`. -/
inductive AttemptResult where
  | requeued (retry : Nat)
  | completed
  | failed
deriving DecidableEq, Repr

/-- Substring test deciding whether an error is recoverable
(`should_retry_error` in `src/utils/uploader.py`). -/
def should_retry_error (msg : String) : Bool :=
  let m := msg.toLower
  ["network", "timeout", "connection", "flood", "rate limit",
   "internal server error", "bad gateway", "service unavailable",
   "too many requests", "temporary failure"].any (fun e => strContains m e)

/-- One pass through `_upload_file_internal` in
`src/utils/uploader.py`: on a send timeout the task is re-queued while
retries remain, else the raised timeout exception ends the attempt; on a
send exception the task is re-queued when retries remain and the error
is recoverable, else the attempt fails; on a completed send, and only
then, `DRIVE_DATA.new_file` is called, once. -/
def uploadAttempt (retryCount : Nat) (o : SendOutcome) : List UploadEvent × AttemptResult :=
  match o with
  | .timeout =>
    if retryCount < MAX_RETRIES then
      ([.sendAttempt, .requeue (retryCount + 1)], .requeued (retryCount + 1))
    else ([.sendAttempt, .errorRaised], .failed)
  | .failure m =>
    if retryCount < MAX_RETRIES && should_retry_error m then
      ([.sendAttempt, .requeue (retryCount + 1)], .requeued (retryCount + 1))
    else ([.sendAttempt, .errorRaised], .failed)
  | .sent i sz => ([.sendAttempt, .sendCompleted i, .newFileCall i sz], .completed)

/-- Whole lifetime of one queued upload: attempts are processed from
the queue one after the other, a re-queued attempt continuing with the
bumped retry count; the run stops at the first completed or failed
attempt.  Returns the concatenated event trace and whether the upload
completed. -/
def runUpload (retryCount : Nat) : List SendOutcome → List UploadEvent × Bool
  | [] => ([], false)
  | o :: os =>
    match uploadAttempt retryCount o with
    | (evs, .requeued n) =>
      let (evs', c) := runUpload n os
      (evs ++ evs', c)
    | (evs, .completed) => (evs, true)
    | (evs, .failed) => (evs, false)

/-- Number of Node Store registrations in a trace. -/
def countNewFile (l : List UploadEvent) : Nat :=
  l.countP (fun e => match e with | .newFileCall _ _ => true | _ => false)

/-- Scan checking that every registration in the trace names a message
id whose send completed earlier in the trace. -/
def regAfterSend (seen : List Nat) : List UploadEvent → Bool
  | [] => true
  | .sendCompleted i :: rest => regAfterSend (i :: seen) rest
  | .newFileCall i _ :: rest => seen.contains i && regAfterSend seen rest
  | _ :: rest => regAfterSend seen rest

/- ### Client pool (src/utils/clients.py) -/

/-- Data the selector sees for one client: its current workload, its
success and error counts, and when it was last used. -/
structure ClientInfo where
  load : Int
  succCount : Nat
  errCount : Nat
  lastUsed : ℚ
deriving DecidableEq, Repr

/-- Score of `select_best_client` in `src/utils/clients.py`: twice the
load, plus three times the failure rate (a new client counts as fully
successful), plus half the recency factor; lower is better. -/
def scoreOf (now : ℚ) (d : ClientInfo) : ℚ :=
  let total : Nat := d.succCount + d.errCount
  let rate : ℚ := if total > 0 then (d.succCount : ℚ) / (total : ℚ) else 1
  let recency : ℚ := min ((now - d.lastUsed) / 300) 1
  (d.load : ℚ) * 2 + (1 - rate) * 3 + recency * ((1 : ℚ) / 2)

/-- Fold keeping the first entry attaining the minimal score, matching
the head of the stable sort in `select_best_client`. -/
def bestFold (now : ℚ) (best : Nat × ℚ) : List (Nat × ClientInfo) → Nat
  | [] => best.1
  | (i, d) :: rest =>
    let s := scoreOf now d
    if s < best.2 then bestFold now (i, s) rest else bestFold now best rest

/-- `select_best_client` of `src/utils/clients.py`: none on an empty
pool, else the first client of minimal score (python sorts the scored
list stably and takes the head). -/
def select_best_client (now : ℚ) : List (Nat × ClientInfo) → Option Nat
  | [] => none
  | (i, d) :: rest => some (bestFold now (i, scoreOf now d) rest)

/-- State of the client pool: the regular and premium workload tables
(their keys are the client ids of the respective pool, as
`initialize_clients` populates client and workload tables together),
the health flags, last-used stamps and performance counters, each
defaulting as the python `dict.get` calls do. -/
structure ClientPool where
  work_loads : List (Nat × Int)
  premium_work_loads : List (Nat × Int)
  health : List (Nat × Bool)
  last_used : List (Nat × ℚ)
  perf : List (Nat × (Nat × Nat))

/-- Health flag of a client, defaulting to healthy. -/
def healthOf (p : ClientPool) (i : Nat) : Bool := (p.health.lookup i).getD true

/-- Last-used stamp of a client, defaulting to zero. -/
def lastUsedOf (p : ClientPool) (i : Nat) : ℚ := (p.last_used.lookup i).getD 0

/-- Performance counters of a client, defaulting to zero. -/
def perfOf (p : ClientPool) (i : Nat) : Nat × Nat := (p.perf.lookup i).getD (0, 0)

/-- Selector view of one workload entry, as built by the
available-clients comprehension in `get_client`. -/
def infoFor (p : ClientPool) (e : Nat × Int) : Nat × ClientInfo :=
  (e.1, ⟨e.2, (perfOf p e.1).1, (perfOf p e.1).2, lastUsedOf p e.1⟩)

/-- Update of an association list at a key, appending when absent. -/
def alSet {β : Type} (l : List (Nat × β)) (k : Nat) (v : β) : List (Nat × β) :=
  match l with
  | [] => [(k, v)]
  | (i, x) :: rest => if i = k then (i, v) :: rest else (i, x) :: alSet rest k v

/-- Increment of the chosen client's workload entry. -/
def bumpLoad (l : List (Nat × Int)) (k : Nat) : List (Nat × Int) :=
  l.map (fun e => if e.1 = k then (e.1, e.2 + 1) else e)

/-- Clamped decrement used by `release_client`. -/
def clampDec (l : List (Nat × Int)) (k : Nat) : List (Nat × Int) :=
  l.map (fun e => if e.1 = k then (e.1, max 0 (e.2 - 1)) else e)

/-- Health table with every listed id reset to healthy. -/
def resetHealth (h : List (Nat × Bool)) (ids : List Nat) : List (Nat × Bool) :=
  ids.foldl (fun acc i => alSet acc i true) h

/-- Selection-and-bump step of `get_client` over one pool (the regular
and premium branches of the source are identical apart from the tables
they touch): filter the pool's workload table to healthy clients, reset
every health flag of the pool when none is healthy and fall back to the
whole table, select the best client, bump its workload and stamp its
last use.  Returns none only when the served table is empty (the python
would raise a key error there). -/
def serveFrom (p : ClientPool) (premium : Bool) (now : ℚ) :
    Option (Bool × Nat) × ClientPool :=
  let table := if premium then p.premium_work_loads else p.work_loads
  let avail := table.filter (fun e => healthOf p e.1)
  let availC := if avail.isEmpty then table else avail
  let p₁ :=
    if avail.isEmpty then
      { p with health := resetHealth p.health (table.map (fun e => e.1)) }
    else p
  match select_best_client now (availC.map (infoFor p)) with
  | none => (none, p₁)
  | some best =>
    if premium then
      (some (true, best),
        { p₁ with premium_work_loads := bumpLoad p₁.premium_work_loads best,
                  last_used := alSet p₁.last_used best now })
    else
      (some (false, best),
        { p₁ with work_loads := bumpLoad p₁.work_loads best,
                  last_used := alSet p₁.last_used best now })

/-- `get_client` of `src/utils/clients.py`: with `premium_required` and
a non-empty premium pool the premium table serves; without
`premium_required`, or as the logged fallback when no premium clients
exist, the regular table serves. -/
def get_client (p : ClientPool) (premiumRequired : Bool) (now : ℚ) :
    Option (Bool × Nat) × ClientPool :=
  if premiumRequired && !p.premium_work_loads.isEmpty then serveFrom p true now
  else serveFrom p false now

/-- `release_client` of `src/utils/clients.py`: the released client's
workload is decremented, clamped at zero (the caller passes the id the
source recovers by matching the client object). -/
def release_client (p : ClientPool) (premium : Bool) (cid : Nat) : ClientPool :=
  if premium then { p with premium_work_loads := clampDec p.premium_work_loads cid }
  else { p with work_loads := clampDec p.work_loads cid }

/-- Per-entry effect of one `monitor_client_health` tick on a workload:
idle clients are decremented with a clamp at zero, then any load above
fifteen is reset to three. -/
def monitorEntry (idle : Bool) (v : Int) : Int :=
  let v1 := if idle then max 0 (v - 1) else v
  if v1 > 15 then 3 else v1

/-- One tick of `monitor_client_health` in `src/utils/clients.py`: both
workload tables are decayed and overload-reset entrywise (the python
runs the decay loop over all clients and then the overload loop, which
per id composes to `monitorEntry`), and health flags of long-idle
unhealthy clients are reset; the idle predicates abstract the wall-clock
comparisons against the last-used stamps. -/
def monitor_tick (p : ClientPool) (idle180 idle300 : Nat → Bool) : ClientPool :=
  let wl := p.work_loads.map (fun e => (e.1, monitorEntry (idle180 e.1) e.2))
  let pwl := p.premium_work_loads.map (fun e => (e.1, monitorEntry (idle180 e.1) e.2))
  let ids := (p.work_loads ++ p.premium_work_loads).map (fun e => e.1)
  let hs := ids.foldl
    (fun h i => if idle300 i && !((h.lookup i).getD true) then alSet h i true else h)
    p.health
  { p with work_loads := wl, premium_work_loads := pwl, health := hs }

/-- Operations of the client pool that touch the workload tables. -/
inductive PoolOp where
  | acquire (premium : Bool) (now : ℚ)
  | release (premium : Bool) (cid : Nat)
  | monitorTick (idle180 idle300 : Nat → Bool)

/-- State transition of one pool operation. -/
def applyPoolOp (p : ClientPool) : PoolOp → ClientPool
  | .acquire prem now => (get_client p prem now).2
  | .release prem cid => release_client p prem cid
  | .monitorTick a b => monitor_tick p a b

/-- Every workload recorded in a table is non-negative. -/
def NonNegLoads (l : List (Nat × Int)) : Prop := ∀ e ∈ l, 0 ≤ e.2

instance (l : List (Nat × Int)) : Decidable (NonNegLoads l) := by
  unfold NonNegLoads; infer_instance

/- ### Demonstration data for concrete evaluations -/

/-- Small tree used in concrete evaluations: two live folders under the
root, one nested folder. -/
def demoTree : FsTree :=
  .folder 0 "" false
    [.folder 1 "a" false [.folder 2 "b" false []], .folder 3 "c" false []]

/-- Tree whose only child is a trashed folder named A. -/
def trashedATree : FsTree := .folder 0 "" false [.folder 1 "A" true []]

/-- Tree holding one live file. -/
def demoFileTree : FsTree := .folder 0 "" false [.file 1 "v.bin" false 42 100 0]

/-- Client pool with one regular and one premium client, every table at
its initialization value. -/
def demoPool : ClientPool :=
  { work_loads := [(1, 0)], premium_work_loads := [(2, 0)],
    health := [(1, true), (2, true)], last_used := [(1, 0), (2, 0)],
    perf := [(1, (0, 0)), (2, (0, 0))] }

/- ### Theorems -/

/-- C3: for every getDirectory request, the special path forms are
dispatched outside generic resolution: a path equal to the trash path
returns the trash listing; otherwise a path containing the search
marker returns search results for the query after the first underscore;
otherwise a path containing the share marker resolves the path after
the first underscore with share-authorization validation; every other
path goes through generic resolution. -/
theorem api_get_directory_dispatch_spec (path : String) :
    (api_get_directory_dispatch path = .trashListing ↔ path = "/trash") ∧
    (path ≠ "/trash" → strContains path "/search_" = true →
      api_get_directory_dispatch path = .searchResults (afterUnderscore path)) ∧
    (path ≠ "/trash" → strContains path "/search_" = false →
      strContains path "/share_" = true →
      api_get_directory_dispatch path = .shareResolve (afterUnderscore path)) ∧
    (path ≠ "/trash" → strContains path "/search_" = false →
      strContains path "/share_" = false →
      api_get_directory_dispatch path = .genericDir path) := by
  by_cases h : path = "/trash"
  · subst h
    exact ⟨by simp [api_get_directory_dispatch], fun hne => absurd rfl hne,
      fun hne => absurd rfl hne, fun hne => absurd rfl hne⟩
  · cases hs : strContains path "/search_" <;> cases hh : strContains path "/share_" <;>
      simp [api_get_directory_dispatch, h, hs, hh]

/-- Concrete instance of the dispatch characterization on a search
path. -/
theorem api_get_directory_dispatch_spec_witness :
    ("/search_movies" : String) ≠ "/trash" ∧
    strContains "/search_movies" "/search_" = true ∧
    api_get_directory_dispatch "/search_movies" =
      .searchResults (afterUnderscore "/search_movies") :=
  ⟨by decide, by decide,
    (api_get_directory_dispatch_spec "/search_movies").2.1 (by decide) (by decide)⟩

/-- C8: the chunk loop of the upload handler never lets the cache file
exceed the size limit: every size the file takes on disk stays within
the limit, and the loop rejects (deleting the partial file and raising
instead of storing) exactly when some prefix of the incoming chunks
overshoots the limit. -/
theorem upload_file_size_guard (maxSize fileSize : Nat) (chunks : List Nat)
    (h : fileSize ≤ maxSize) :
    (∀ s ∈ diskSizes maxSize fileSize chunks, s ≤ maxSize) ∧
    (writeChunks maxSize fileSize chunks = .rejectedOversize ↔
      ∃ p, p <+: chunks ∧ maxSize < fileSize + p.sum) := by
  induction chunks generalizing fileSize with
  | nil =>
    refine ⟨?_, ?_⟩
    · intro s hs
      simp only [diskSizes, List.mem_singleton] at hs
      omega
    · simp only [writeChunks]
      constructor
      · intro hc; exact absurd hc (by simp)
      · rintro ⟨p, hp, hlt⟩
        rw [List.prefix_nil.mp hp] at hlt
        simp at hlt
        omega
  | cons c rest ih =>
    by_cases hc : fileSize + c > maxSize
    · refine ⟨?_, ?_⟩
      · intro s hs
        simp only [diskSizes, if_pos hc, List.mem_cons, List.mem_singleton,
          List.not_mem_nil, or_false] at hs
        rcases hs with rfl | rfl <;> omega
      · simp only [writeChunks, if_pos hc]
        constructor
        · intro _
          exact ⟨[c], ⟨rest, rfl⟩, by simpa using hc⟩
        · intro _; trivial
    · have h' : fileSize + c ≤ maxSize := by omega
      obtain ⟨ih1, ih2⟩ := ih (fileSize + c) h'
      refine ⟨?_, ?_⟩
      · intro s hs
        simp only [diskSizes, if_neg hc, List.mem_cons] at hs
        rcases hs with rfl | hs
        · exact h
        · exact ih1 s hs
      · simp only [writeChunks, if_neg hc]
        rw [ih2]
        constructor
        · rintro ⟨q, hq, hlt⟩
          refine ⟨c :: q, ?_, ?_⟩
          · exact (List.cons_prefix_cons).mpr ⟨rfl, hq⟩
          · simp only [List.sum_cons]; omega
        · rintro ⟨p, hp, hlt⟩
          match p, hp with
          | [], _ => simp at hlt; omega
          | a :: q, hp =>
            obtain ⟨rfl, hq⟩ := (List.cons_prefix_cons).mp hp
            refine ⟨q, hq, ?_⟩
            simp only [List.sum_cons] at hlt
            omega

/-- Concrete instance of the upload size guard: limit ten, chunks of
four and eight bytes. -/
theorem upload_file_size_guard_witness :
    (0 : Nat) ≤ 10 ∧
    ((∀ s ∈ diskSizes 10 0 [4, 8], s ≤ 10) ∧
      (writeChunks 10 0 [4, 8] = .rejectedOversize ↔
        ∃ p, p <+: [4, 8] ∧ 10 < 0 + p.sum)) :=
  ⟨by decide, upload_file_size_guard 10 0 [4, 8] (by decide)⟩

/-- C4: over the whole lifetime of a queued upload, the Node Store
registration `new_file` happens exactly once when the upload completes
and never otherwise — the timeout and recoverable-error paths re-queue
without registering — and every registration names a message id whose
remote send completed earlier in the trace. -/
theorem uploader_registers_once (retryCount : Nat) (os : List SendOutcome) :
    countNewFile (runUpload retryCount os).1 =
      (if (runUpload retryCount os).2 then 1 else 0) ∧
    regAfterSend [] (runUpload retryCount os).1 = true := by
  induction os generalizing retryCount with
  | nil => simp [runUpload, countNewFile, regAfterSend]
  | cons o os ih =>
    cases o with
    | timeout =>
      by_cases hr : retryCount < MAX_RETRIES
      · obtain ⟨ih1, ih2⟩ := ih (retryCount + 1)
        simp only [runUpload, uploadAttempt, if_pos hr]
        refine ⟨?_, ?_⟩
        · simpa [countNewFile, List.countP_cons] using ih1
        · simpa [regAfterSend] using ih2
      · simp [runUpload, uploadAttempt, if_neg hr, countNewFile, List.countP_cons,
          regAfterSend]
    | failure m =>
      by_cases hr : retryCount < MAX_RETRIES ∧ should_retry_error m = true
      · have hb : (decide (retryCount < MAX_RETRIES) && should_retry_error m) = true := by
          simp [hr.1, hr.2]
        obtain ⟨ih1, ih2⟩ := ih (retryCount + 1)
        simp only [runUpload, uploadAttempt, hb, if_pos]
        refine ⟨?_, ?_⟩
        · simpa [countNewFile, List.countP_cons] using ih1
        · simpa [regAfterSend] using ih2
      · have hb : (decide (retryCount < MAX_RETRIES) && should_retry_error m) = false := by
          rcases Decidable.not_and_iff_or_not.mp hr with hx | hx
          · simp [hx]
          · simp [Bool.eq_false_iff.mpr hx]
        simp [runUpload, uploadAttempt, hb, countNewFile, List.countP_cons, regAfterSend]
    | sent i sz =>
      simp [runUpload, uploadAttempt, countNewFile, List.countP_cons, regAfterSend]

/-- C6: every mutation handler checks the password first: a request
whose password differs from the admin secret gets the invalid-password
response, invokes no Node Store operation, and leaves the drive state
unchanged. -/
theorem wrong_password_no_mutation (adminPw pw : String) (s : DriveState)
    (path src dst : List String) (nm : String) (b : Bool)
    (h : (pw == adminPw) = false) :
    api_new_folder adminPw pw s path nm = (.statusMsg invalidPasswordMsg, s, []) ∧
    api_rename_file_folder adminPw pw s path nm = (.statusMsg invalidPasswordMsg, s, []) ∧
    api_trash_file_folder adminPw pw s path b = (.statusMsg invalidPasswordMsg, s, []) ∧
    api_delete_file_folder adminPw pw s path = (.statusMsg invalidPasswordMsg, s, []) ∧
    api_move_file_folder adminPw pw s src dst = (.statusMsg invalidPasswordMsg, s, []) ∧
    api_copy_file_folder adminPw pw s src dst = (.statusMsg invalidPasswordMsg, s, []) := by
  simp [api_new_folder, api_rename_file_folder, api_trash_file_folder,
    api_delete_file_folder, api_move_file_folder, api_copy_file_folder, h]

/-- Concrete instance of the password guard: a wrong password against a
one-folder drive. -/
theorem wrong_password_no_mutation_witness :
    (("wrong" : String) == "s3cret") = false ∧
    api_rename_file_folder "s3cret" "wrong" ⟨demoTree, 4⟩ [ "a"] "z" =
      (.statusMsg invalidPasswordMsg, ⟨demoTree, 4⟩, []) :=
  ⟨by decide,
    (wrong_password_no_mutation "s3cret" "wrong" ⟨demoTree, 4⟩ [ "a"] [] [] "z" false
      (by decide)).2.1⟩

/-- C2 counterexample: with the correct password, a rename whose drive
operation fails surfaces the framework's internal error — not one of
the four taxonomy errors — because the rename handler has no
try/except. -/
theorem rename_error_escapes_taxonomy :
    (api_rename_file_folder "pw" "pw" ⟨FsTree.folder 0 "" false [], 1⟩ [ "a"] "b").1
      = ApiResponse.internalServerError ∧
    taxonomyOnly ApiResponse.internalServerError = false := by
  constructor
  · rfl
  · rfl

/-- C2 amended: with the correct password, the move and copy handlers
surface only taxonomy errors (their try/except stringifies the typed
drive exception), while the rename, trash and delete handlers, which
have no try/except, answer ok or let the failure escape as the
framework's internal error. -/
theorem mutation_error_surface (adminPw pw : String) (s : DriveState)
    (path src dst : List String) (nm : String) (b : Bool)
    (h : (pw == adminPw) = true) :
    taxonomyOnly (api_move_file_folder adminPw pw s src dst).1 = true ∧
    taxonomyOnly (api_copy_file_folder adminPw pw s src dst).1 = true ∧
    ((api_rename_file_folder adminPw pw s path nm).1 = .ok ∨
      (api_rename_file_folder adminPw pw s path nm).1 = .internalServerError) ∧
    ((api_trash_file_folder adminPw pw s path b).1 = .ok ∨
      (api_trash_file_folder adminPw pw s path b).1 = .internalServerError) ∧
    ((api_delete_file_folder adminPw pw s path).1 = .ok ∨
      (api_delete_file_folder adminPw pw s path).1 = .internalServerError) := by
  refine ⟨?_, ?_, ?_, ?_, ?_⟩
  · simp only [api_move_file_folder, h, Bool.not_true, Bool.false_eq_true, if_false]
    cases move_file_folder s.tree src dst with
    | ok t' => rfl
    | error e => cases e <;> rfl
  · simp only [api_copy_file_folder, h, Bool.not_true, Bool.false_eq_true, if_false]
    cases copy_file_folder s.tree s.fresh src dst with
    | ok t' => rfl
    | error e => cases e <;> rfl
  · simp only [api_rename_file_folder, h, Bool.not_true, Bool.false_eq_true, if_false]
    cases rename_file_folder s.tree path nm with
    | ok t' => exact Or.inl rfl
    | error e => exact Or.inr rfl
  · simp only [api_trash_file_folder, h, Bool.not_true, Bool.false_eq_true, if_false]
    cases trash_file_folder s.tree path b with
    | ok t' => exact Or.inl rfl
    | error e => exact Or.inr rfl
  · simp only [api_delete_file_folder, h, Bool.not_true, Bool.false_eq_true, if_false]
    cases delete_file_folder s.tree path with
    | ok t' => exact Or.inl rfl
    | error e => exact Or.inr rfl

/-- Concrete instance of the amended error-surface property, with the
correct password over the demonstration drive. -/
theorem mutation_error_surface_witness :
    (("s3cret" : String) == "s3cret") = true ∧
    taxonomyOnly (api_move_file_folder "s3cret" "s3cret" ⟨demoTree, 4⟩ [ "a"] [ "a"]).1
      = true :=
  ⟨by decide,
    (mutation_error_surface "s3cret" "s3cret" ⟨demoTree, 4⟩ [] [ "a"] [ "a"] "z" false
      (by decide)).1⟩

/-- A child found by the resolution lookup is live and carries the
looked-up name. -/
theorem findChild_props (nm : String) (l : List FsTree) (c : FsTree)
    (h : findChild nm l = some c) : trashedOf c = false ∧ nameOf c = nm := by
  induction l with
  | nil => simp [findChild] at h
  | cons a cs ih =>
    by_cases ha : (!(trashedOf a) && (nameOf a == nm)) = true
    · rw [findChild, if_pos ha] at h
      cases h
      simp only [Bool.and_eq_true, Bool.not_eq_true', beq_iff_eq] at ha
      exact ⟨ha.1, ha.2⟩
    · rw [findChild, if_neg ha] at h
      exact ih h

/-- Extraction succeeds on the child the lookup finds, the id counts
split accordingly, and lookups under any other name are unaffected. -/
theorem findChild_extract (nm : String) (l : List FsTree) (c : FsTree)
    (h : findChild nm l = some c) :
    ∃ l', extractChild nm l = some (c, l') ∧
      (∀ j, idCountList j l = idCount j c + idCountList j l') ∧
      (∀ nm', nm' ≠ nm → findChild nm' l' = findChild nm' l) := by
  induction l with
  | nil => simp [findChild] at h
  | cons a cs ih =>
    by_cases ha : (!(trashedOf a) && (nameOf a == nm)) = true
    · rw [findChild, if_pos ha] at h
      cases h
      refine ⟨cs, by rw [extractChild, if_pos ha], fun j => by simp [idCountList], ?_⟩
      intro nm' hne
      have hname : nameOf c = nm := ((findChild_props nm (c :: cs) c
        (by rw [findChild, if_pos ha]))).2
      rw [findChild]
      have : (nameOf c == nm') = false := by
        simp only [beq_eq_false_iff_ne, ne_eq, hname]
        exact fun hx => hne hx.symm
      simp [this]
    · rw [findChild, if_neg ha] at h
      obtain ⟨l', hex, hcnt, hfind⟩ := ih h
      refine ⟨a :: l', ?_, ?_, ?_⟩
      · rw [extractChild, if_neg ha, hex]
      · intro j; simp only [idCountList]; have := hcnt j; omega
      · intro nm' hne
        rw [findChild, findChild]
        by_cases ha' : (!(trashedOf a) && (nameOf a == nm')) = true
        · rw [if_pos ha', if_pos ha']
        · rw [if_neg ha', if_neg ha']
          exact hfind nm' hne

/-- Replacement succeeds on the child the lookup finds; the id counts
are adjusted by the swap, a lookup under the same name now finds the
replacement when it is live and keeps the name, and lookups under any
other name are unaffected when the replacement keeps the name. -/
theorem findChild_replace (nm : String) (l : List FsTree) (c c' : FsTree)
    (h : findChild nm l = some c) :
    ∃ l', replaceChild nm c' l = some l' ∧
      (∀ j, idCountList j l' + idCount j c = idCountList j l + idCount j c') ∧
      (trashedOf c' = false → nameOf c' = nm → findChild nm l' = some c') ∧
      (∀ nm', nameOf c' = nm → nm' ≠ nm → findChild nm' l' = findChild nm' l) := by
  induction l with
  | nil => simp [findChild] at h
  | cons a cs ih =>
    by_cases ha : (!(trashedOf a) && (nameOf a == nm)) = true
    · rw [findChild, if_pos ha] at h
      cases h
      refine ⟨c' :: cs, by rw [replaceChild, if_pos ha], fun j => by simp [idCountList]; omega,
        ?_, ?_⟩
      · intro htr hnm
        rw [findChild]
        simp [htr, hnm]
      · intro nm' hnm hne
        have hname : nameOf c = nm := (findChild_props nm (c :: cs) c
          (by rw [findChild, if_pos ha])).2
        rw [findChild, findChild]
        have h1 : (nameOf c' == nm') = false := by
          simp only [beq_eq_false_iff_ne, ne_eq, hnm]
          exact fun hx => hne hx.symm
        have h2 : (nameOf c == nm') = false := by
          simp only [beq_eq_false_iff_ne, ne_eq, hname]
          exact fun hx => hne hx.symm
        simp [h1, h2]
    · rw [findChild, if_neg ha] at h
      obtain ⟨l', hrep, hcnt, hself, hother⟩ := ih h
      refine ⟨a :: l', by rw [replaceChild, if_neg ha, hrep], ?_, ?_, ?_⟩
      · intro j; simp only [idCountList]; have := hcnt j; omega
      · intro htr hnm
        rw [findChild, if_neg ha]
        exact hself htr hnm
      · intro nm' hnm hne
        rw [findChild, findChild]
        by_cases ha' : (!(trashedOf a) && (nameOf a == nm')) = true
        · rw [if_pos ha', if_pos ha']
        · rw [if_neg ha', if_neg ha']
          exact hother nm' hnm hne

/-- A successful extraction is the child the lookup finds. -/
theorem extractChild_findChild (nm : String) (l : List FsTree) (nd : FsTree)
    (l' : List FsTree) (h : extractChild nm l = some (nd, l')) :
    findChild nm l = some nd := by
  induction l generalizing l' with
  | nil => simp [extractChild] at h
  | cons a cs ih =>
    by_cases ha : (!(trashedOf a) && (nameOf a == nm)) = true
    · rw [extractChild, if_pos ha] at h
      cases h
      rw [findChild, if_pos ha]
    · rw [extractChild, if_neg ha] at h
      rw [findChild, if_neg ha]
      cases hex : extractChild nm cs with
      | none => rw [hex] at h; cases h
      | some p =>
        rw [hex] at h
        cases h
        exact ih p.2 hex

/-- Inserting below a path leaves the root's identity, name and trash
flag unchanged, and both trees are folders at the root. -/
theorem insertAt_root (t t' node : FsTree) (path : List String)
    (h : insertAt t path node = some t') :
    identOf t' = identOf t ∧ nameOf t' = nameOf t ∧ trashedOf t' = trashedOf t ∧
      isFolder t' = true ∧ isFolder t = true := by
  cases path with
  | nil =>
    cases t with
    | file i n tr fid sz du => simp [insertAt] at h
    | folder i n tr ch =>
      simp only [insertAt] at h
      cases h
      exact ⟨rfl, rfl, rfl, rfl, rfl⟩
  | cons seg rest =>
    cases t with
    | file i n tr fid sz du => simp [insertAt] at h
    | folder i n tr ch =>
      simp only [insertAt] at h
      cases hfc : findChild seg ch with
      | none => rw [hfc] at h; cases h
      | some c =>
        rw [hfc] at h
        dsimp only at h
        cases hins : insertAt c rest node with
        | none => rw [hins] at h; cases h
        | some c' =>
          rw [hins] at h
          dsimp only at h
          cases hrep : replaceChild seg c' ch with
          | none => rw [hrep] at h; cases h
          | some ch' =>
            rw [hrep] at h
            cases h
            exact ⟨rfl, rfl, rfl, rfl, rfl⟩

/-- Removing below a path leaves the root's identity, name and trash
flag unchanged, and both trees are folders at the root. -/
theorem removeAt_root (t t₁ node : FsTree) (path : List String)
    (h : removeAt t path = some (t₁, node)) :
    identOf t₁ = identOf t ∧ nameOf t₁ = nameOf t ∧ trashedOf t₁ = trashedOf t ∧
      isFolder t₁ = true ∧ isFolder t = true := by
  cases path with
  | nil => simp [removeAt] at h
  | cons seg rest =>
    cases t with
    | file i n tr fid sz du => simp [removeAt] at h
    | folder i n tr ch =>
      cases rest with
      | nil =>
        simp only [removeAt] at h
        cases hex : extractChild seg ch with
        | none => rw [hex] at h; cases h
        | some p =>
          rw [hex] at h
          cases h
          exact ⟨rfl, rfl, rfl, rfl, rfl⟩
      | cons r rs =>
        rw [removeAt] at h
        cases hfc : findChild seg ch with
        | none => rw [hfc] at h; cases h
        | some c =>
          rw [hfc] at h
          dsimp only at h
          cases hrem : removeAt c (r :: rs) with
          | none => rw [hrem] at h; cases h
          | some p =>
            rw [hrem] at h
            dsimp only at h
            cases hrep : replaceChild seg p.1 ch with
            | none => rw [hrep] at h; cases h
            | some ch' =>
              rw [hrep] at h
              dsimp only at h
              cases h
              exact ⟨rfl, rfl, rfl, rfl, rfl⟩

/-- Inserting a node under a path that resolves to a folder succeeds:
the path then resolves to the same folder with the node prepended to
its children, and the id counts grow by exactly the node's counts. -/
theorem insertAt_resolve (path : List String) :
    ∀ (t : FsTree) (i : Nat) (n : String) (tr : Bool) (ch : List FsTree) (node : FsTree),
      resolve t path = some (.folder i n tr ch) →
      ∃ t', insertAt t path node = some t' ∧
        resolve t' path = some (.folder i n tr (node :: ch)) ∧
        ∀ j, idCount j t' = idCount j t + idCount j node := by
  induction path with
  | nil =>
    intro t i n tr ch node h
    rw [resolve] at h
    injection h with h
    subst h
    refine ⟨.folder i n tr (node :: ch), rfl, rfl, ?_⟩
    intro j
    simp only [idCount, idCountList]
    omega
  | cons seg rest ih =>
    intro t i n tr ch node h
    cases t with
    | file i0 n0 tr0 fid sz du => rw [resolve] at h; cases h
    | folder i0 n0 tr0 ch0 =>
      rw [resolve] at h
      cases hfc : findChild seg ch0 with
      | none => rw [hfc] at h; cases h
      | some c =>
        rw [hfc] at h
        dsimp only at h
        obtain ⟨c', hins, hres, hcnt⟩ := ih c i n tr ch node h
        obtain ⟨htrc, hnmc⟩ := findChild_props seg ch0 c hfc
        obtain ⟨hid', hnm', htr', hfold', _⟩ := insertAt_root c c' node rest hins
        obtain ⟨ch₁, hrep, hcnt₁, hself, _⟩ := findChild_replace seg ch0 c c' hfc
        have hfc₁ : findChild seg ch₁ = some c' := by
          apply hself
          · rw [htr', htrc]
          · rw [hnm', hnmc]
        refine ⟨.folder i0 n0 tr0 ch₁, ?_, ?_, ?_⟩
        · simp only [insertAt]
          rw [hfc]
          dsimp only
          rw [hins]
          dsimp only
          rw [hrep]
        · rw [resolve, hfc₁]
          exact hres
        · intro j
          simp only [idCount]
          have h1 := hcnt₁ j
          have h2 := hcnt j
          omega

/-- Removing the node a non-empty path resolves to succeeds, and the id
counts of the original tree split into those of the remainder and those
of the removed node. -/
theorem removeAt_of_resolve (path : List String) :
    ∀ (t node : FsTree), resolve t path = some node → path ≠ [] →
      ∃ t₁, removeAt t path = some (t₁, node) ∧
        ∀ j, idCount j t = idCount j t₁ + idCount j node := by
  induction path with
  | nil => intro t node _ hne; exact absurd rfl hne
  | cons seg rest ih =>
    intro t node h _
    cases t with
    | file i0 n0 tr0 fid sz du => rw [resolve] at h; cases h
    | folder i0 n0 tr0 ch0 =>
      rw [resolve] at h
      cases hfc : findChild seg ch0 with
      | none => rw [hfc] at h; cases h
      | some c =>
        rw [hfc] at h
        dsimp only at h
        cases rest with
        | nil =>
          rw [resolve] at h
          injection h with h
          subst h
          obtain ⟨ch', hex, hcnt, _⟩ := findChild_extract seg ch0 c hfc
          refine ⟨.folder i0 n0 tr0 ch', ?_, ?_⟩
          · rw [removeAt, hex]
          · intro j
            simp only [idCount]
            have := hcnt j
            omega
        | cons r rs =>
          obtain ⟨c₁, hrem, hcnt⟩ := ih c node h (by simp)
          obtain ⟨hid', hnm', htr', hfold', _⟩ := removeAt_root c c₁ node (r :: rs) hrem
          obtain ⟨ch₁, hrep, hcnt₁, _, _⟩ := findChild_replace seg ch0 c c₁ hfc
          refine ⟨.folder i0 n0 tr0 ch₁, ?_, ?_⟩
          · rw [removeAt, hfc]
            dsimp only
            rw [hrem]
            dsimp only
            rw [hrep]
          · intro j
            simp only [idCount]
            have h1 := hcnt₁ j
            have h2 := hcnt j
            omega

/-- A path is within itself. -/
theorem pathWithin_refl (p : List String) : pathWithin p p = true := by
  induction p with
  | nil => rfl
  | cons a as ih => simp [pathWithin, ih]

/-- A path is within every extension of itself. -/
theorem pathWithin_extend (p e : List String) : pathWithin p (p ++ e) = true := by
  induction p with
  | nil => rfl
  | cons a as ih => simp [pathWithin, ih]

/-- Only a non-empty path can fail the containment test. -/
theorem ne_nil_of_pathWithin_false (p q : List String) (h : pathWithin p q = false) :
    p ≠ [] := by
  intro hp
  subst hp
  simp [pathWithin] at h

/-- Removing a node under one path leaves the resolution of every path
outside the removed subtree intact up to the root attributes of the
resolved node: identity, name, trash flag and variant are unchanged. -/
theorem resolve_removeAt (dst : List String) :
    ∀ (src : List String) (t t₁ node dn : FsTree),
      removeAt t src = some (t₁, node) → pathWithin src dst = false →
      resolve t dst = some dn →
      ∃ d₁, resolve t₁ dst = some d₁ ∧ identOf d₁ = identOf dn ∧ nameOf d₁ = nameOf dn ∧
        trashedOf d₁ = trashedOf dn ∧ isFolder d₁ = isFolder dn := by
  induction dst with
  | nil =>
    intro src t t₁ node dn hrem _ hres
    rw [resolve] at hres
    injection hres with hres
    subst hres
    obtain ⟨hid, hnm, htr, hf₁, hf⟩ := removeAt_root t t₁ node src hrem
    exact ⟨t₁, rfl, hid, hnm, htr, by rw [hf₁, hf]⟩
  | cons dseg drest ih =>
    intro src t t₁ node dn hrem hpw hres
    cases src with
    | nil => rw [removeAt] at hrem; cases hrem
    | cons sseg srest =>
      cases t with
      | file i0 n0 tr0 fid sz du => rw [removeAt] at hrem; cases hrem
      | folder i0 n0 tr0 ch0 =>
        rw [resolve] at hres
        cases hfc : findChild dseg ch0 with
        | none => rw [hfc] at hres; cases hres
        | some cd =>
          rw [hfc] at hres
          dsimp only at hres
          cases srest with
          | nil =>
            rw [removeAt] at hrem
            cases hex : extractChild sseg ch0 with
            | none => rw [hex] at hrem; cases hrem
            | some p =>
              rw [hex] at hrem
              dsimp only at hrem
              rw [Option.some.injEq, Prod.mk.injEq] at hrem
              obtain ⟨hrem₁, hrem₂⟩ := hrem
              have hsd : sseg ≠ dseg := by
                intro hx
                subst hx
                simp [pathWithin] at hpw
              obtain ⟨l', hex', _, hfind'⟩ := findChild_extract sseg ch0 p.1
                (extractChild_findChild sseg ch0 p.1 p.2 (by rw [hex]))
              have hl' : l' = p.2 := by
                rw [hex] at hex'
                injection hex' with hex''
                exact (congrArg Prod.snd hex'').symm
              have hfc₁ : findChild dseg p.2 = some cd := by
                rw [← hl']
                rw [hfind' dseg (fun hx => hsd hx.symm)]
                exact hfc
              refine ⟨dn, ?_, rfl, rfl, rfl, rfl⟩
              rw [← hrem₁, resolve, hfc₁]
              exact hres
          | cons s2 ss =>
            rw [removeAt] at hrem
            cases hfs : findChild sseg ch0 with
            | none => rw [hfs] at hrem; cases hrem
            | some cs =>
              rw [hfs] at hrem
              dsimp only at hrem
              cases hrs : removeAt cs (s2 :: ss) with
              | none => rw [hrs] at hrem; cases hrem
              | some q =>
                rw [hrs] at hrem
                dsimp only at hrem
                cases hrp : replaceChild sseg q.1 ch0 with
                | none => rw [hrp] at hrem; cases hrem
                | some ch₁ =>
                  rw [hrp] at hrem
                  dsimp only at hrem
                  rw [Option.some.injEq, Prod.mk.injEq] at hrem
                  obtain ⟨hrem₁, hrem₂⟩ := hrem
                  obtain ⟨hidq, hnmq, htrq, _, _⟩ :=
                    removeAt_root cs q.1 q.2 (s2 :: ss) hrs
                  obtain ⟨htrs, hnms⟩ := findChild_props sseg ch0 cs hfs
                  obtain ⟨l', hrp', _, hself, hother⟩ :=
                    findChild_replace sseg ch0 cs q.1 hfs
                  have hl' : l' = ch₁ := by
                    rw [hrp] at hrp'
                    injection hrp' with hv
                    exact hv.symm
                  by_cases hsd : dseg = sseg
                  · subst hsd
                    have hcd : cd = cs := by
                      rw [hfc] at hfs
                      injection hfs
                    have hpw' : pathWithin (s2 :: ss) drest = false := by
                      simp only [pathWithin, beq_self_eq_true, Bool.true_and] at hpw
                      exact hpw
                    have hfc₁ : findChild dseg ch₁ = some q.1 := by
                      rw [← hl']
                      apply hself
                      · rw [htrq, htrs]
                      · rw [hnmq, hnms]
                    have hq2 : q = (q.1, node) := by
                      have : q.2 = node := hrem₂
                      rw [← this]
                    obtain ⟨d₁, hres₁, hprops⟩ := ih (s2 :: ss) cs q.1 node dn
                      (by rw [hrs, hq2]) hpw' (by rw [← hcd]; exact hres)
                    refine ⟨d₁, ?_, hprops.1, hprops.2.1, hprops.2.2.1, hprops.2.2.2⟩
                    rw [← hrem₁, resolve, hfc₁]
                    exact hres₁
                  · have hfc₁ : findChild dseg ch₁ = some cd := by
                      rw [← hl', hother dseg (hnmq.trans hnms) hsd]
                      exact hfc
                    refine ⟨dn, ?_, rfl, rfl, rfl, rfl⟩
                    rw [← hrem₁, resolve, hfc₁]
                    exact hres

/-- C7: moving a node onto itself or into its own subtree always fails
with InvalidOperation and leaves the tree unchanged, while a move to a
resolvable folder destination outside the source's subtree with no
non-trashed name collision succeeds and re-parents the node without
copying: the id counts of the tree are preserved and the moved node
appears among the destination folder's children. -/
theorem move_file_folder_spec (t : FsTree) (p e src dst : List String)
    (nd dn node : FsTree) :
    (resolve t p = some nd →
      move_file_folder t p p = .error .invalidOperation ∧ applyMove t p p = t) ∧
    (resolve t p = some nd → resolve t (p ++ e) = some dn →
      move_file_folder t p (p ++ e) = .error .invalidOperation ∧
        applyMove t p (p ++ e) = t) ∧
    (resolve t src = some node → resolve t dst = some dn → isFolder dn = true →
      hasLiveChildNamed (nameOf node) (childrenOf dn) = false →
      pathWithin src dst = false →
      ∃ t₂ i n tr ch, move_file_folder t src dst = .ok t₂ ∧
        (∀ j, idCount j t₂ = idCount j t) ∧
        resolve t₂ dst = some (.folder i n tr (node :: ch))) := by
  refine ⟨?_, ?_, ?_⟩
  · intro h
    have hmv : move_file_folder t p p = .error .invalidOperation := by
      simp only [move_file_folder]
      rw [h]
      dsimp only
      simp [pathWithin_refl]
    exact ⟨hmv, by simp [applyMove, hmv]⟩
  · intro h hd
    have hmv : move_file_folder t p (p ++ e) = .error .invalidOperation := by
      simp only [move_file_folder]
      rw [h]
      dsimp only
      rw [hd]
      dsimp only
      simp [pathWithin_extend]
    exact ⟨hmv, by simp [applyMove, hmv]⟩
  · intro hs hd hf hcoll hpw
    have hne := ne_nil_of_pathWithin_false src dst hpw
    obtain ⟨t₁, hrem, hcnt₁⟩ := removeAt_of_resolve src t node hs hne
    obtain ⟨d₁, hres₁, hid, hnm, htr, hfold⟩ :=
      resolve_removeAt dst src t t₁ node dn hrem hpw hd
    have hf₁ : isFolder d₁ = true := by rw [hfold, hf]
    cases d₁ with
    | file i n tr fid sz du => simp [isFolder] at hf₁
    | folder i n tr ch =>
      obtain ⟨t₂, hins, hres₂, hcnt₂⟩ := insertAt_resolve dst t₁ i n tr ch node hres₁
      refine ⟨t₂, i, n, tr, ch, ?_, ?_, hres₂⟩
      · simp only [move_file_folder]
        rw [hs]
        dsimp only
        rw [hd]
        dsimp only
        simp only [hpw, hf, hcoll, Bool.not_true, Bool.false_eq_true, if_false]
        rw [hrem]
        dsimp only
        rw [hins]
      · intro j
        have h1 := hcnt₁ j
        have h2 := hcnt₂ j
        omega

/-- Concrete instance of the move characterization over the
demonstration tree: onto itself, into the own subtree, and to a live
sibling folder. -/
theorem move_file_folder_spec_witness :
    (move_file_folder demoTree [ "a"] [ "a"] = .error .invalidOperation ∧
      applyMove demoTree [ "a"] [ "a"] = demoTree) ∧
    (move_file_folder demoTree [ "a"] ([ "a"] ++ [ "b"]) = .error .invalidOperation ∧
      applyMove demoTree [ "a"] ([ "a"] ++ [ "b"]) = demoTree) ∧
    (∃ t₂ i n tr ch, move_file_folder demoTree [ "a"] [ "c"] = .ok t₂ ∧
      (∀ j, idCount j t₂ = idCount j demoTree) ∧
      resolve t₂ [ "c"] = some (.folder i n tr
        (FsTree.folder 1 "a" false [FsTree.folder 2 "b" false []] :: ch))) :=
  ⟨(move_file_folder_spec demoTree [ "a"] [ "b"] [ "a"] [ "c"]
      (FsTree.folder 1 "a" false [FsTree.folder 2 "b" false []])
      (FsTree.folder 2 "b" false [])
      (FsTree.folder 1 "a" false [FsTree.folder 2 "b" false []])).1 rfl,
   (move_file_folder_spec demoTree [ "a"] [ "b"] [ "a"] [ "c"]
      (FsTree.folder 1 "a" false [FsTree.folder 2 "b" false []])
      (FsTree.folder 2 "b" false [])
      (FsTree.folder 1 "a" false [FsTree.folder 2 "b" false []])).2.1 rfl rfl,
   (move_file_folder_spec demoTree [ "a"] [ "b"] [ "a"] [ "c"]
      (FsTree.folder 1 "a" false [FsTree.folder 2 "b" false []])
      (FsTree.folder 3 "c" false [])
      (FsTree.folder 1 "a" false [FsTree.folder 2 "b" false []])).2.2
        rfl rfl rfl rfl rfl⟩

/-- C1 counterexample: with the correct password, creating a folder
named like an existing trashed sibling folder is rejected with the
conflict status by the handler loop, even though no non-trashed sibling
folder carries that name — the trashed name blocks instead of merely
shadowing. -/
theorem new_folder_trashed_name_blocks :
    (api_new_folder "pw" "pw" ⟨trashedATree, 2⟩ [] "A").1
      = ApiResponse.statusMsg folderConflictMsg ∧
    hasLiveFolderNamed "A" [FsTree.folder 1 "A" true []] = false :=
  ⟨rfl, rfl⟩

/-- A children list with no folder of the given name has no live folder
of that name either. -/
theorem live_folder_any (nm : String) (ch : List FsTree)
    (h : ch.any (fun c => isFolder c && (nameOf c == nm)) = false) :
    hasLiveFolderNamed nm ch = false := by
  simp only [List.any_eq_false] at h
  simp only [hasLiveFolderNamed, List.any_eq_false]
  intro c hc
  have hchc := h c hc
  cases hF : isFolder c <;> cases hN : (nameOf c == nm) <;> simp_all

/-- C1 amended: for a createNewFolder request with the correct password
whose parent path resolves, the request is rejected with the conflict
status exactly when some sibling folder — trashed or not — carries the
requested name; when no sibling folder carries the name, the folder is
created. -/
theorem api_new_folder_collision (adminPw pw : String) (s : DriveState)
    (path : List String) (nm : String) (i : Nat) (n : String) (tr : Bool)
    (ch : List FsTree)
    (hpw : (pw == adminPw) = true)
    (hres : resolve s.tree path = some (.folder i n tr ch)) :
    ((api_new_folder adminPw pw s path nm).1 = .statusMsg folderConflictMsg ↔
      ch.any (fun c => isFolder c && (nameOf c == nm)) = true) ∧
    (ch.any (fun c => isFolder c && (nameOf c == nm)) = false →
      ∃ t', insertAt s.tree path (.folder s.fresh nm false []) = some t' ∧
        api_new_folder adminPw pw s path nm =
          (.ok, ⟨t', s.fresh + 1⟩, [.opGetDirectory path, .opNewFolder path nm])) := by
  cases hany : ch.any (fun c => isFolder c && (nameOf c == nm)) with
  | true =>
    refine ⟨?_, by intro hx; cases hx⟩
    have hmsg : (api_new_folder adminPw pw s path nm).1 = .statusMsg folderConflictMsg := by
      simp only [api_new_folder, hpw, Bool.not_true, Bool.false_eq_true, if_false]
      rw [hres]
      dsimp only
      rw [if_pos hany]
    simp [hmsg]
  | false =>
    have hlive := live_folder_any nm ch hany
    obtain ⟨t', hins, _, _⟩ :=
      insertAt_resolve path s.tree i n tr ch (.folder s.fresh nm false []) hres
    have hnf : new_folder s.tree s.fresh path nm = .ok (t', s.fresh + 1) := by
      simp only [new_folder]
      rw [hres]
      dsimp only
      rw [if_neg (by simp [isFolder])]
      rw [if_neg (by simp [childrenOf, hlive])]
      rw [hins]
    have hhandler : api_new_folder adminPw pw s path nm =
        (.ok, ⟨t', s.fresh + 1⟩, [.opGetDirectory path, .opNewFolder path nm]) := by
      simp only [api_new_folder, hpw, Bool.not_true, Bool.false_eq_true, if_false]
      rw [hres]
      dsimp only
      rw [if_neg (by simp [hany])]
      rw [hnf]
    refine ⟨?_, fun _ => ⟨t', hins, hhandler⟩⟩
    rw [hhandler]
    simp [folderConflictMsg]

/-- Concrete instance of the amended create-folder property: a fresh
name under the demonstration tree's root is created. -/
theorem api_new_folder_collision_witness :
    (("pw" : String) == "pw") = true ∧
    ([FsTree.folder 1 "a" false [FsTree.folder 2 "b" false []],
        FsTree.folder 3 "c" false []].any
      (fun c => isFolder c && (nameOf c == "z")) = false) ∧
    (∃ t', insertAt demoTree [] (.folder 4 "z" false []) = some t' ∧
      api_new_folder "pw" "pw" ⟨demoTree, 4⟩ [] "z" =
        (.ok, ⟨t', 5⟩, [.opGetDirectory [], .opNewFolder [] "z"])) :=
  ⟨rfl, rfl,
    (api_new_folder_collision "pw" "pw" ⟨demoTree, 4⟩ [] "z" 0 "" false
      [FsTree.folder 1 "a" false [FsTree.folder 2 "b" false []],
        FsTree.folder 3 "c" false []] rfl rfl).2 rfl⟩

/-- C5: the file route first performs the `get_file` lookup — obtaining
the node's storage reference, name and size — and on success the whole
streaming flow performs exactly that one read: its Node Store trace is
the single non-mutating `get_file` operation, so the namespace is never
mutated while bytes are served. -/
theorem dl_file_reads_only (t : FsTree) (path : List String) (remoteSize : Int)
    (quality : String) (range : Option (Int × Option Int)) (chunkSize : Int)
    (fid : Nat) (nm : String) (sz : Nat)
    (h : get_file t path = some (fid, nm, sz)) :
    dl_file t path remoteSize quality range chunkSize =
      .ok ([DriveOp.opGetFile path], fid,
        media_streamer nm quality remoteSize range chunkSize) ∧
    ∀ op ∈ [DriveOp.opGetFile path], isMutation op = false := by
  constructor
  · simp only [dl_file]
    rw [h]
  · intro op hop
    simp only [List.mem_singleton] at hop
    subst hop
    rfl

/-- Concrete instance of the read-only streaming flow over a one-file
drive. -/
theorem dl_file_reads_only_witness :
    get_file demoFileTree [ "v.bin"] = some (42, "v.bin", 100) ∧
    (dl_file demoFileTree [ "v.bin"] 100 "original" none 262144 =
      .ok ([DriveOp.opGetFile [ "v.bin"]], 42,
        media_streamer "v.bin" "original" 100 none 262144) ∧
    ∀ op ∈ [DriveOp.opGetFile [ "v.bin"]], isMutation op = false) :=
  ⟨rfl, dl_file_reads_only demoFileTree [ "v.bin"] 100 "original" none 262144
    42 "v.bin" 100 rfl⟩

/-- The best-score fold returns its seed or a listed client. -/
theorem bestFold_mem (now : ℚ) (l : List (Nat × ClientInfo)) :
    ∀ b : Nat × ℚ, bestFold now b l = b.1 ∨ bestFold now b l ∈ l.map (fun e => e.1) := by
  induction l with
  | nil => intro b; left; rfl
  | cons a rest ih =>
    intro b
    obtain ⟨i, d⟩ := a
    simp only [bestFold, List.map_cons, List.mem_cons]
    by_cases hs : scoreOf now d < b.2
    · rw [if_pos hs]
      rcases ih (i, scoreOf now d) with h | h
      · right; left; exact h
      · right; right; exact h
    · rw [if_neg hs]
      rcases ih b with h | h
      · left; exact h
      · right; right; exact h

/-- Selection over a non-empty list returns a listed client. -/
theorem select_best_client_mem (now : ℚ) (l : List (Nat × ClientInfo)) (hl : l ≠ []) :
    ∃ i, select_best_client now l = some i ∧ i ∈ l.map (fun e => e.1) := by
  cases l with
  | nil => exact absurd rfl hl
  | cons a rest =>
    obtain ⟨i, d⟩ := a
    refine ⟨bestFold now (i, scoreOf now d) rest, rfl, ?_⟩
    simp only [List.map_cons, List.mem_cons]
    rcases bestFold_mem now rest (i, scoreOf now d) with h | h
    · left; exact h
    · right; exact h

/-- The selection step of `get_client` over a non-empty workload table
returns a client of that table, whether or not any client is healthy
(the health reset makes the whole table available again). -/
theorem select_step (p : ClientPool) (now : ℚ) (table : List (Nat × Int))
    (ht : table ≠ []) :
    ∃ best, select_best_client now
        ((if (table.filter (fun e => healthOf p e.1)).isEmpty then table
          else table.filter (fun e => healthOf p e.1)).map (infoFor p)) = some best ∧
      best ∈ table.map (fun e => e.1) := by
  by_cases hA : (table.filter (fun e => healthOf p e.1)).isEmpty = true
  · rw [if_pos hA]
    obtain ⟨i, hsel, hmem⟩ := select_best_client_mem now (table.map (infoFor p))
      (by simp [List.map_eq_nil_iff, ht])
    refine ⟨i, hsel, ?_⟩
    obtain ⟨e', he', rfl⟩ := List.mem_map.mp hmem
    obtain ⟨e, he, rfl⟩ := List.mem_map.mp he'
    exact List.mem_map.mpr ⟨e, he, rfl⟩
  · rw [if_neg hA]
    have hne : table.filter (fun e => healthOf p e.1) ≠ [] := by
      intro hx
      rw [hx] at hA
      exact hA rfl
    obtain ⟨i, hsel, hmem⟩ := select_best_client_mem now
      ((table.filter (fun e => healthOf p e.1)).map (infoFor p))
      (by simp [List.map_eq_nil_iff, hne])
    refine ⟨i, hsel, ?_⟩
    obtain ⟨e', he', rfl⟩ := List.mem_map.mp hmem
    obtain ⟨e, he, rfl⟩ := List.mem_map.mp he'
    exact List.mem_map.mpr ⟨e, (List.mem_filter.mp he).1, rfl⟩

/-- The selection-and-bump step over a non-empty table answers with a
client of that table, tagged with the pool it came from. -/
theorem serveFrom_total (p : ClientPool) (prem : Bool) (now : ℚ)
    (ht : (if prem then p.premium_work_loads else p.work_loads) ≠ []) :
    ∃ best, (serveFrom p prem now).1 = some (prem, best) ∧
      best ∈ (if prem then p.premium_work_loads else p.work_loads).map (fun e => e.1) := by
  obtain ⟨best, hsel, hmem⟩ :=
    select_step p now (if prem then p.premium_work_loads else p.work_loads) ht
  refine ⟨best, ?_, hmem⟩
  cases prem
  · simp only [Bool.false_eq_true, if_false] at hsel
    simp only [serveFrom, Bool.false_eq_true, if_false]
    rw [hsel]
  · simp only [if_true] at hsel
    simp only [serveFrom, if_true]
    rw [hsel]

/-- After the selection step, each workload table is either untouched
or has one client's load bumped. -/
theorem serveFrom_loads (p : ClientPool) (prem : Bool) (now : ℚ) :
    ((serveFrom p prem now).2.work_loads = p.work_loads ∨
      ∃ k, (serveFrom p prem now).2.work_loads = bumpLoad p.work_loads k) ∧
    ((serveFrom p prem now).2.premium_work_loads = p.premium_work_loads ∨
      ∃ k, (serveFrom p prem now).2.premium_work_loads =
        bumpLoad p.premium_work_loads k) := by
  simp only [serveFrom]
  split
  · constructor <;> left <;> split <;> split <;> rfl
  · next best heq =>
    split
    · constructor
      · left; split <;> rfl
      · right; exact ⟨best, by split <;> rfl⟩
    · constructor
      · right; exact ⟨best, by split <;> rfl⟩
      · left; split <;> rfl

/-- A bumped workload table keeps every load non-negative. -/
theorem nonneg_bumpLoad (l : List (Nat × Int)) (k : Nat) (h : NonNegLoads l) :
    NonNegLoads (bumpLoad l k) := by
  intro e he
  simp only [bumpLoad, List.mem_map] at he
  obtain ⟨e₀, he₀, rfl⟩ := he
  by_cases hk : e₀.1 = k
  · rw [if_pos hk]
    dsimp only
    have := h e₀ he₀
    omega
  · rw [if_neg hk]
    exact h e₀ he₀

/-- A released workload table keeps every load non-negative. -/
theorem nonneg_clampDec (l : List (Nat × Int)) (k : Nat) (h : NonNegLoads l) :
    NonNegLoads (clampDec l k) := by
  intro e he
  simp only [clampDec, List.mem_map] at he
  obtain ⟨e₀, he₀, rfl⟩ := he
  by_cases hk : e₀.1 = k
  · rw [if_pos hk]
    dsimp only
    exact le_max_left 0 _
  · rw [if_neg hk]
    exact h e₀ he₀

/-- The monitor's decay-then-reset step keeps a load non-negative. -/
theorem nonneg_monitorEntry (idle : Bool) (v : Int) (h : 0 ≤ v) :
    0 ≤ monitorEntry idle v := by
  simp only [monitorEntry]
  split <;> split
  · norm_num
  · exact le_max_left 0 _
  · norm_num
  · exact h

/-- Every pool operation — an acquisition through `get_client`, a
release, or a health-monitor tick — keeps both workload tables
non-negative. -/
theorem applyPoolOp_nonneg (p : ClientPool) (op : PoolOp)
    (h1 : NonNegLoads p.work_loads) (h2 : NonNegLoads p.premium_work_loads) :
    NonNegLoads (applyPoolOp p op).work_loads ∧
    NonNegLoads (applyPoolOp p op).premium_work_loads := by
  cases op with
  | acquire prem now =>
    have key : ∀ b : Bool, NonNegLoads (serveFrom p b now).2.work_loads ∧
        NonNegLoads (serveFrom p b now).2.premium_work_loads := by
      intro b
      obtain ⟨hw, hp⟩ := serveFrom_loads p b now
      constructor
      · rcases hw with hw | ⟨k, hw⟩
        · rw [hw]; exact h1
        · rw [hw]; exact nonneg_bumpLoad p.work_loads k h1
      · rcases hp with hp | ⟨k, hp⟩
        · rw [hp]; exact h2
        · rw [hp]; exact nonneg_bumpLoad p.premium_work_loads k h2
    simp only [applyPoolOp, get_client]
    split
    · exact key true
    · exact key false
  | release prem cid =>
    simp only [applyPoolOp, release_client]
    split
    · exact ⟨h1, nonneg_clampDec p.premium_work_loads cid h2⟩
    · exact ⟨nonneg_clampDec p.work_loads cid h1, h2⟩
  | monitorTick a b =>
    simp only [applyPoolOp, monitor_tick]
    constructor
    · intro e he
      simp only [List.mem_map] at he
      obtain ⟨e₀, he₀, rfl⟩ := he
      exact nonneg_monitorEntry (a e₀.1) e₀.2 (h1 e₀ he₀)
    · intro e he
      simp only [List.mem_map] at he
      obtain ⟨e₀, he₀, rfl⟩ := he
      exact nonneg_monitorEntry (a e₀.1) e₀.2 (h2 e₀ he₀)

/-- C9: from any state with non-negative workloads, every sequence of
client-pool operations — acquisitions, releases and monitor ticks —
leaves every recorded workload in both tables non-negative: increments
never break it, and the decrements of release and the monitor clamp at
zero. -/
theorem pool_loads_nonneg (p : ClientPool) (ops : List PoolOp)
    (h1 : NonNegLoads p.work_loads) (h2 : NonNegLoads p.premium_work_loads) :
    NonNegLoads (ops.foldl applyPoolOp p).work_loads ∧
    NonNegLoads (ops.foldl applyPoolOp p).premium_work_loads := by
  induction ops generalizing p with
  | nil => exact ⟨h1, h2⟩
  | cons op ops ih =>
    simp only [List.foldl_cons]
    obtain ⟨g1, g2⟩ := applyPoolOp_nonneg p op h1 h2
    exact ih (applyPoolOp p op) g1 g2

/-- Concrete instance of the workload invariant: the demonstration pool
under an acquisition, a release and a monitor tick. -/
theorem pool_loads_nonneg_witness :
    NonNegLoads demoPool.work_loads ∧ NonNegLoads demoPool.premium_work_loads ∧
    (NonNegLoads (([PoolOp.acquire false 0, PoolOp.release false 1,
        PoolOp.monitorTick (fun _ => true) (fun _ => true)].foldl
          applyPoolOp demoPool)).work_loads ∧
      NonNegLoads (([PoolOp.acquire false 0, PoolOp.release false 1,
        PoolOp.monitorTick (fun _ => true) (fun _ => true)].foldl
          applyPoolOp demoPool)).premium_work_loads) :=
  ⟨by decide, by decide,
    pool_loads_nonneg demoPool
      [PoolOp.acquire false 0, PoolOp.release false 1,
        PoolOp.monitorTick (fun _ => true) (fun _ => true)]
      (by decide) (by decide)⟩

/-- C10: whenever the regular pool is non-empty, `get_client` returns a
client of one of the pools — even when every client is unhealthy, since
the health flags are then reset and selection runs over the whole table
— serving from the premium pool exactly when premium service was
requested and premium clients exist, and falling back to the regular
pool when premium service was requested but no premium clients exist. -/
theorem get_client_total (p : ClientPool) (premReq : Bool) (now : ℚ)
    (h : p.work_loads ≠ []) :
    ∃ prem best, (get_client p premReq now).1 = some (prem, best) ∧
      ((prem = true ∧ best ∈ p.premium_work_loads.map (fun e => e.1)) ∨
        (prem = false ∧ best ∈ p.work_loads.map (fun e => e.1))) ∧
      ((premReq = false ∨ p.premium_work_loads = []) → prem = false) ∧
      (premReq = true → p.premium_work_loads ≠ [] → prem = true) := by
  by_cases hb : (premReq && !p.premium_work_loads.isEmpty) = true
  · obtain ⟨hreq, hne⟩ := Bool.and_eq_true_iff.mp hb
    have hpne : p.premium_work_loads ≠ [] := by
      intro hx
      rw [hx] at hne
      simp at hne
    obtain ⟨best, hfst, hmem⟩ := serveFrom_total p true now (by simpa using hpne)
    refine ⟨true, best, ?_, ?_, ?_, fun _ _ => rfl⟩
    · simp only [get_client, if_pos hb]
      exact hfst
    · left
      exact ⟨rfl, by simpa using hmem⟩
    · intro hx
      rcases hx with hx | hx
      · rw [hx] at hreq; cases hreq
      · exact absurd hx hpne
  · obtain ⟨best, hfst, hmem⟩ := serveFrom_total p false now (by simpa using h)
    refine ⟨false, best, ?_, ?_, fun _ => rfl, ?_⟩
    · simp only [get_client, if_neg hb]
      exact hfst
    · right
      exact ⟨rfl, by simpa using hmem⟩
    · intro hreq hne
      rw [hreq] at hb
      simp only [Bool.true_and, Bool.not_eq_true] at hb
      have hemp : p.premium_work_loads.isEmpty = true := by simpa using hb
      exact absurd (List.isEmpty_iff.mp hemp) hne

/-- Concrete instance of client-selection totality: a premium request
over the demonstration pool. -/
theorem get_client_total_witness :
    demoPool.work_loads ≠ [] ∧
    (∃ prem best, (get_client demoPool true 0).1 = some (prem, best) ∧
      ((prem = true ∧ best ∈ demoPool.premium_work_loads.map (fun e => e.1)) ∨
        (prem = false ∧ best ∈ demoPool.work_loads.map (fun e => e.1))) ∧
      ((true = false ∨ demoPool.premium_work_loads = []) → prem = false) ∧
      (true = true → demoPool.premium_work_loads ≠ [] → prem = true)) :=
  ⟨by decide, get_client_total demoPool true 0 (by decide)⟩
